import Mathlib

/-!
Verification development for the Focus and Highlight plugin's edit-mode focus
engine (`src/utils/editModeFocusManager.ts`) and the plugin controller's
pointer handling (`src/unnamed/part_001`).

Documents are modelled as lists of lines, each line a list of characters
(CodeMirror line numbers are 1-based).  Structural metadata mirrors the host's
`CachedMetadata` as consumed by the code: an optional list of heading entries
(level, 0-based start line) and an optional list of section entries.
-/

namespace FocusPlugin

/-- A character of the class matched by the JS regex `\s`
(this is also exactly the set removed by `String.prototype.trim`). -/
def isWs (c : Char) : Bool :=
  c = ' ' || c = '\t' || c = '\n' || c = '\r' || c = '\x0b' || c = '\x0c' ||
  c.val = 0x00A0 || c.val = 0x1680 || (0x2000 ≤ c.val && c.val ≤ 0x200A) ||
  c.val = 0x2028 || c.val = 0x2029 || c.val = 0x202F || c.val = 0x205F ||
  c.val = 0x3000 || c.val = 0xFEFF

/-- A JS line terminator: the characters the regex `.` does not match. -/
def isLineTerm (c : Char) : Bool :=
  c = '\n' || c = '\r' || c.val = 0x2028 || c.val = 0x2029

/-- Number of leading `#` characters of a line. -/
def countLeadingHashes : List Char → Nat
  | [] => 0
  | c :: cs => if c = '#' then countLeadingHashes cs + 1 else 0

/-- Matching of `\s+` followed by `.+` against the rest of a line, with the
regex engine's backtracking: consume one mandatory whitespace character, then
succeed as soon as the next character is matched by `.`, otherwise keep
extending the `\s+` run. -/
def wsThenDot : List Char → Bool
  | [] => false
  | c :: cs =>
    if isWs c then
      match cs with
      | [] => false
      | d :: _ => if isLineTerm d then wsThenDot cs else true
    else false

/-- Embeds `lineText.match(/^(#{1,6})\s+(.+)/)` from `getFocusInfoForLine`:
`some level` when the line matches, where `level` is the number of `#`
characters captured by the first group; `none` otherwise.  Backtracking to
fewer than the maximal run of `#` characters can never succeed (the next
character would be `#`, which `\s` does not match), so the level is the full
leading-hash count, capped by the match failing when it exceeds 6. -/
def headingMatchLevel (s : List Char) : Option Nat :=
  let n := countLeadingHashes s
  if 1 ≤ n && n ≤ 6 && wsThenDot (s.drop n) then some n else none

/-- Embeds `lineText.trim()` (JS trims exactly the `\s` class). -/
def jsTrim (s : List Char) : List Char :=
  ((s.dropWhile isWs).reverse.dropWhile isWs).reverse

/-- Matching of `/^#{1,6}\s+/` against a (trimmed) line, as used by the
paragraph scans of `getParagraphFocusInfo`. -/
def headingPat (s : List Char) : Bool :=
  let n := countLeadingHashes s
  (1 ≤ n && n ≤ 6) &&
    (match s.drop n with
     | c :: _ => isWs c
     | [] => false)

/-- The stopping condition of both scans in `getParagraphFocusInfo`:
`lineText === '' || lineText.match(/^#{1,6}\s+/)` applied to the trimmed
line text. -/
def isParagraphBoundary (line : List Char) : Bool :=
  let t := jsTrim line
  t = [] || headingPat t

/-- 1-based line lookup on a document, `doc.line(n).text`. -/
def docLine (doc : List (List Char)) (n : Nat) : List Char :=
  doc.getD (n - 1) []

/-- Build a document from string literals. -/
def mkDoc (ls : List String) : List (List Char) :=
  ls.map String.toList

/- ## Structural metadata (the host's `CachedMetadata` as consumed) -/

/-- A position inside a document, 0-based line as in the metadata cache. -/
structure LocPos where
  line : Nat
  deriving DecidableEq, Repr

/-- A start/stop range; `stop` renders the source's `position.end`. -/
structure LocRange where
  start : LocPos
  stop : LocPos
  deriving DecidableEq, Repr

/-- One entry of `metadata.headings`. -/
structure HeadingCache where
  level : Nat
  position : LocRange
  deriving DecidableEq, Repr

/-- One entry of `metadata.sections`. -/
structure SectionCache where
  position : LocRange
  deriving DecidableEq, Repr

/-- The slice of `CachedMetadata` the edit-mode manager reads; either field
may be `undefined` in the host's cache, rendered as `Option`. -/
structure CachedMetadata where
  headings : Option (List HeadingCache)
  sections : Option (List SectionCache)
  deriving DecidableEq, Repr

/- ## Focus info -/

/-- The `type` discriminator of `EditModeFocusInfo`. -/
inductive FocusType
  | heading
  | paragraph
  | list
  | block
  deriving DecidableEq, Repr

/-- The `EditModeFocusInfo` record: inclusive 1-based line extent plus
classification. -/
structure EditModeFocusInfo where
  fromLine : Nat
  toLine : Nat
  type : FocusType
  level : Option Nat := none
  deriving DecidableEq, Repr

/-- Embeds `Array.prototype.findIndex` (the source compares the result with
`-1`, rendered here as `none`). -/
def jsFindIndex (p : HeadingCache → Bool) : List HeadingCache → Option Nat
  | [] => none
  | h :: t => if p h then some 0 else (jsFindIndex p t).map (· + 1)

/-- Embeds `EditModeFocusManager.getHeadingFocusInfo(headingLine, level)`.
The manager's fields `this.metadata` and `this.includeBody` are passed
explicitly.  `metadata.bind (·.headings)` renders `this.metadata?.headings`
(the empty array is truthy in JS, so only a missing field degrades here). -/
def getHeadingFocusInfo (metadata : Option CachedMetadata) (includeBody : Bool)
    (headingLine level : Nat) : EditModeFocusInfo :=
  match metadata.bind (fun m => m.headings) with
  | none =>
    { fromLine := headingLine, toLine := headingLine,
      type := FocusType.heading, level := some level }
  | some headings =>
    match jsFindIndex (fun h => h.position.start.line + 1 = headingLine) headings with
    | none =>
      { fromLine := headingLine, toLine := headingLine,
        type := FocusType.heading, level := some level }
    | some currentHeadingIndex =>
      -- the loop over headings after the current one, breaking at the first
      -- of equal or shallower level
      let toLine1 :=
        if includeBody then
          match (headings.drop (currentHeadingIndex + 1)).find?
              (fun h => h.level ≤ level) with
          | some h => h.position.start.line
          | none => headingLine
        else headingLine
      -- `if (toLine === headingLine && this.metadata.sections && ...)`
      let toLine2 :=
        if includeBody ∧ toLine1 = headingLine then
          match metadata.bind (fun m => m.sections) with
          | some sections =>
            if 0 < sections.length then
              match sections.getLast? with
              | some lastSection => lastSection.position.stop.line + 1
              | none => toLine1
            else toLine1
          | none => toLine1
        else toLine1
      { fromLine := headingLine, toLine := toLine2,
        type := FocusType.heading, level := some level }

/-- Embeds `EditModeFocusManager.findParentHeading(lineNumber)`: scan the
metadata headings from the last to the first and return the heading focus
info of the first whose adjusted (1-based) start line precedes the clicked
line. -/
def findParentHeading (metadata : Option CachedMetadata) (includeBody : Bool)
    (lineNumber : Nat) : Option EditModeFocusInfo :=
  match metadata.bind (fun m => m.headings) with
  | none => none
  | some headings =>
    match headings.reverse.find? (fun h => h.position.start.line + 1 < lineNumber) with
    | some h =>
      some (getHeadingFocusInfo metadata includeBody (h.position.start.line + 1) h.level)
    | none => none

/-- The upward scan of `getParagraphFocusInfo`:
`for (let i = lineNumber - 1; i >= 1; i--)`, breaking at the first paragraph
boundary and otherwise recording `fromLine = i`.  The first argument counts
the current loop index `i`; `acc` is the `fromLine` recorded so far, so the
scan is invoked as `paraFromAux doc (lineNumber - 1) lineNumber`. -/
def paraFromAux (doc : List (List Char)) : Nat → Nat → Nat
  | 0, acc => acc
  | k + 1, acc =>
    if isParagraphBoundary (docLine doc (k + 1)) then acc
    else paraFromAux doc k (k + 1)

/-- The downward scan of `getParagraphFocusInfo`:
`for (let i = lineNumber + 1; i <= doc.lines; i++)`, breaking at the first
paragraph boundary and otherwise recording `toLine = i`.  The first argument
is the number of remaining iterations, the second the loop index `i`, the
third the `toLine` recorded so far. -/
def paraToAux (doc : List (List Char)) : Nat → Nat → Nat → Nat
  | 0, _, acc => acc
  | fuel + 1, i, acc =>
    if isParagraphBoundary (docLine doc i) then acc
    else paraToAux doc fuel (i + 1) i

/-- Embeds `EditModeFocusManager.getParagraphFocusInfo(lineNumber, doc)`. -/
def getParagraphFocusInfo (lineNumber : Nat) (doc : List (List Char)) :
    EditModeFocusInfo :=
  { fromLine := paraFromAux doc (lineNumber - 1) lineNumber
    toLine := paraToAux doc (doc.length - lineNumber) (lineNumber + 1) lineNumber
    type := FocusType.paragraph
    level := none }

/-- Embeds `EditModeFocusManager.getFocusInfoForLine(lineNumber, doc)`.
The TS return type is `EditModeFocusInfo | null`, rendered as `Option`;
every `return` statement of the source wraps a non-null value. -/
def getFocusInfoForLine (metadata : Option CachedMetadata) (includeBody : Bool)
    (lineNumber : Nat) (doc : List (List Char)) : Option EditModeFocusInfo :=
  let lineText := docLine doc lineNumber
  match headingMatchLevel lineText with
  | some level => some (getHeadingFocusInfo metadata includeBody lineNumber level)
  | none =>
    match metadata with
    | none => some (getParagraphFocusInfo lineNumber doc)
    | some _ =>
      match findParentHeading metadata includeBody lineNumber with
      | some headingInfo =>
        if includeBody then some headingInfo
        else some (getParagraphFocusInfo lineNumber doc)
      | none => some (getParagraphFocusInfo lineNumber doc)

/- ## Editor state field and decorations -/

/-- An effect carried by an editor transaction, as seen by the two state
fields: a `setFocusEffect` (whose payload type is `EditModeFocusInfo | null`),
a `clearFocusEffect`, or any unrelated effect. -/
inductive FocusEffect
  | setFocus (value : Option EditModeFocusInfo)
  | clearFocus
  | other
  deriving DecidableEq, Repr

/-- Embeds the `update` method of `focusStateField`: walk the transaction's
effects in order; the first `setFocusEffect` returns its payload, the first
`clearFocusEffect` returns `null`, and if neither occurs the previous value
is kept. -/
def focusStateUpdate (value : Option EditModeFocusInfo) :
    List FocusEffect → Option EditModeFocusInfo
  | [] => value
  | FocusEffect.setFocus v :: _ => v
  | FocusEffect.clearFocus :: _ => none
  | FocusEffect.other :: rest => focusStateUpdate value rest

/-- The first set-focus or clear-focus effect of a transaction, skipping
unrelated effects. -/
def firstFocusEffect : List FocusEffect → Option FocusEffect
  | [] => none
  | FocusEffect.other :: rest => firstFocusEffect rest
  | e :: _ => some e

/-- A per-line decoration marker. -/
inductive LineMark
  | dimmed
  | focused
  deriving DecidableEq, Repr

/-- Embeds `buildDecorations(doc, focusInfo)`: with no focus info the set is
empty; otherwise every 1-based line `i` of the document receives exactly one
line decoration, `focusedLineMark` inside `[fromLine, toLine]` and
`dimmedLineMark` outside. -/
def buildDecorations (doc : List (List Char))
    (focusInfo : Option EditModeFocusInfo) : List (Nat × LineMark) :=
  match focusInfo with
  | none => []
  | some fi =>
    (List.range doc.length).map (fun k =>
      if fi.fromLine ≤ k + 1 ∧ k + 1 ≤ fi.toLine then (k + 1, LineMark.focused)
      else (k + 1, LineMark.dimmed))

/- ## Plugin controller: settings and the pointerup guard -/

/-- The `clearMethod` setting. -/
inductive ClearMethod
  | clickAgain
  | clickOutside
  deriving DecidableEq, Repr

/-- The `contentBehavior` setting. -/
inductive ContentBehavior
  | element
  | content
  | nothing
  deriving DecidableEq, Repr

/-- The `focusScope` setting. -/
inductive FocusScope
  | block
  | content
  deriving DecidableEq, Repr

/-- The persisted `FocusPluginSettings` record. -/
structure FocusPluginSettings where
  clearMethod : ClearMethod
  contentBehavior : ContentBehavior
  focusScope : FocusScope
  enableList : Bool
  focusSensitivity : Int
  indicator : Bool
  isEnabled : Bool
  deriving DecidableEq, Repr

/-- `DEFAULT_SETTINGS` from the plugin controller. -/
def DEFAULT_SETTINGS : FocusPluginSettings :=
  { clearMethod := ClearMethod.clickAgain
    contentBehavior := ContentBehavior.nothing
    focusScope := FocusScope.content
    enableList := false
    focusSensitivity := 1600
    indicator := true
    isEnabled := true }

/-- A focus-state mutation either mode's manager can perform in response to a
pointer event. -/
inductive FocusAction
  | previewFocus
  | previewClear
  | editFocus (info : EditModeFocusInfo)
  | editClear
  deriving DecidableEq, Repr

/-- Embeds the guard structure of the document `pointerup` handler in the
plugin controller's `onload`: return immediately when the plugin is disabled,
then return immediately when the time elapsed since the paired `pointerdown`
(`evt.timeStamp - this.lastClick`) exceeds `focusSensitivity`.  Everything
after the two guards (target checks, mode detection, and the preview/edit
focus and clear logic) is abstracted as `dispatch`, the list of focus-state
actions that remainder would perform for the given target and mode. -/
def pointerupHandler (settings : FocusPluginSettings)
    (lastClick timeStamp : Int) (dispatch : List FocusAction) :
    List FocusAction :=
  if !settings.isEnabled then []
  else if settings.focusSensitivity < timeStamp - lastClick then []
  else dispatch

/- ## Concrete documents and metadata used in the claims -/

/-- The document of spec property 6: `["# H1", "line A", "line B", "", "line C"]`. -/
def sampleDoc : List (List Char) :=
  mkDoc ["# H1", "line A", "line B", "", "line C"]

/-- Metadata with two adjacent level-1 headings on 1-based lines 1 and 2 and a
trailing paragraph on line 3 (document `"# A" / "# B" / "text"`). -/
def mdAdjacent : CachedMetadata :=
  { headings := some [
      { level := 1, position := { start := { line := 0 }, stop := { line := 0 } } },
      { level := 1, position := { start := { line := 1 }, stop := { line := 1 } } } ],
    sections := some [
      { position := { start := { line := 0 }, stop := { line := 0 } } },
      { position := { start := { line := 1 }, stop := { line := 1 } } },
      { position := { start := { line := 2 }, stop := { line := 2 } } } ] }

/-- The metadata of spec property 7: headings at 1-based lines 1 (level 1)
and 5 (level 2), last section ending at 0-based line 9. -/
def mdSpecSeven : CachedMetadata :=
  { headings := some [
      { level := 1, position := { start := { line := 0 }, stop := { line := 0 } } },
      { level := 2, position := { start := { line := 4 }, stop := { line := 4 } } } ],
    sections := some [
      { position := { start := { line := 0 }, stop := { line := 9 } } } ] }

/-- `mdSpecSeven` with the second heading at level 1, so that it does
terminate a level-1 section. -/
def mdSpecSevenLvl1 : CachedMetadata :=
  { headings := some [
      { level := 1, position := { start := { line := 0 }, stop := { line := 0 } } },
      { level := 1, position := { start := { line := 4 }, stop := { line := 4 } } } ],
    sections := some [
      { position := { start := { line := 0 }, stop := { line := 9 } } } ] }

/-- A concrete focus info record used in the state-field theorems. -/
def probeInfo : EditModeFocusInfo :=
  { fromLine := 1, toLine := 2, type := FocusType.heading, level := some 1 }

/- ## Helper lemmas -/

/-- A successful heading match reports the leading-hash count as its level. -/
theorem headingMatchLevel_eq (s : List Char) (level : Nat)
    (h : headingMatchLevel s = some level) : level = countLeadingHashes s := by
  simp only [headingMatchLevel] at h
  split at h
  · exact (Option.some_inj.mp h).symm
  · cases h

/-- Every branch of `getHeadingFocusInfo` classifies the result as a heading. -/
theorem getHeadingFocusInfo_type (metadata : Option CachedMetadata)
    (includeBody : Bool) (headingLine level : Nat) :
    (getHeadingFocusInfo metadata includeBody headingLine level).type =
      FocusType.heading := by
  unfold getHeadingFocusInfo
  split
  · rfl
  · split
    · rfl
    · rfl

/-- Every branch of `getHeadingFocusInfo` starts the extent at the clicked
heading line and records the given level. -/
theorem getHeadingFocusInfo_fromLine (metadata : Option CachedMetadata)
    (includeBody : Bool) (headingLine level : Nat) :
    (getHeadingFocusInfo metadata includeBody headingLine level).fromLine =
      headingLine := by
  unfold getHeadingFocusInfo
  split
  · rfl
  · split
    · rfl
    · rfl

/-- A found parent heading is classified as a heading. -/
theorem findParentHeading_type (metadata : Option CachedMetadata)
    (includeBody : Bool) (lineNumber : Nat) (info : EditModeFocusInfo)
    (h : findParentHeading metadata includeBody lineNumber = some info) :
    info.type = FocusType.heading := by
  unfold findParentHeading at h
  split at h
  · cases h
  · split at h
    · injection h with h2
      subst h2
      exact getHeadingFocusInfo_type _ _ _ _
    · cases h

/-- `jsFindIndex` finds nothing when the predicate holds nowhere. -/
theorem jsFindIndex_eq_none (p : HeadingCache → Bool) (l : List HeadingCache)
    (h : ∀ x ∈ l, p x = false) : jsFindIndex p l = none := by
  induction l with
  | nil => rfl
  | cons a t ih =>
    unfold jsFindIndex
    rw [h a (List.mem_cons_self a t)]
    simp only [Bool.false_eq_true, if_false]
    rw [ih (fun x hx => h x (List.mem_cons_of_mem a hx))]
    rfl

/-- Invariant of the upward paragraph scan: starting from `acc = k + 1`, the
result is a line in `[1, acc]`, every line from the result up to (but not
including) `acc` is a non-boundary line, and the scan stopped at the document
top or just below a boundary line. -/
theorem paraFromAux_spec (doc : List (List Char)) :
    ∀ k acc, acc = k + 1 →
      1 ≤ paraFromAux doc k acc ∧
      paraFromAux doc k acc ≤ acc ∧
      (∀ j, paraFromAux doc k acc ≤ j → j < acc →
        isParagraphBoundary (docLine doc j) = false) ∧
      (paraFromAux doc k acc = 1 ∨
        isParagraphBoundary (docLine doc (paraFromAux doc k acc - 1)) = true) := by
  intro k
  induction k with
  | zero =>
    intro acc hacc
    subst hacc
    simp only [paraFromAux]
    refine ⟨Nat.le_refl _, Nat.le_refl _, ?_, Or.inl trivial⟩
    intro j hj1 hj2
    omega
  | succ k ih =>
    intro acc hacc
    subst hacc
    cases hb : isParagraphBoundary (docLine doc (k + 1)) with
    | true =>
      simp only [paraFromAux, hb, if_true]
      refine ⟨by omega, Nat.le_refl _, ?_, Or.inr ?_⟩
      · intro j hj1 hj2
        omega
      · simpa using hb
    | false =>
      simp only [paraFromAux, hb, Bool.false_eq_true, if_false]
      obtain ⟨h1, h2, h3, h4⟩ := ih (k + 1) rfl
      refine ⟨h1, by omega, ?_, h4⟩
      intro j hj1 hj2
      rcases Nat.lt_or_ge j (k + 1) with hj | hj
      · exact h3 j hj1 hj
      · have : j = k + 1 := by omega
        subst this
        exact hb

/-- Invariant of the downward paragraph scan: starting at index `acc + 1`
with `acc + fuel` lines in the document, the result is a line in
`[acc, doc.length]`, every line after `acc` up to and including the result is
a non-boundary line, and the scan stopped at the document bottom or just
above a boundary line. -/
theorem paraToAux_spec (doc : List (List Char)) :
    ∀ fuel acc, acc + fuel = doc.length →
      acc ≤ paraToAux doc fuel (acc + 1) acc ∧
      paraToAux doc fuel (acc + 1) acc ≤ doc.length ∧
      (∀ j, acc < j → j ≤ paraToAux doc fuel (acc + 1) acc →
        isParagraphBoundary (docLine doc j) = false) ∧
      (paraToAux doc fuel (acc + 1) acc = doc.length ∨
        isParagraphBoundary
          (docLine doc (paraToAux doc fuel (acc + 1) acc + 1)) = true) := by
  intro fuel
  induction fuel with
  | zero =>
    intro acc hacc
    simp only [paraToAux]
    refine ⟨Nat.le_refl _, by omega, ?_, Or.inl (by omega)⟩
    intro j hj1 hj2
    omega
  | succ fuel ih =>
    intro acc hacc
    cases hb : isParagraphBoundary (docLine doc (acc + 1)) with
    | true =>
      simp only [paraToAux, hb, if_true]
      refine ⟨Nat.le_refl _, by omega, ?_, Or.inr trivial⟩
      intro j hj1 hj2
      omega
    | false =>
      simp only [paraToAux, hb, Bool.false_eq_true, if_false]
      obtain ⟨h1, h2, h3, h4⟩ := ih (acc + 1) (by omega)
      refine ⟨by omega, h2, ?_, h4⟩
      intro j hj1 hj2
      rcases Nat.lt_or_ge (acc + 1) j with hj | hj
      · exact h3 j hj hj2
      · have : j = acc + 1 := by omega
        subst this
        exact hb

/- ## Claim theorems -/

/-- C10: for every document and every clicked line number between 1 and the
document's line count, the paragraph extent satisfies
`1 ≤ fromLine ≤ lineNumber ≤ toLine ≤ doc.length`: it always contains the
clicked line and never reaches outside the document. -/
theorem paragraph_extent_in_bounds (doc : List (List Char)) (lineNumber : Nat)
    (h1 : 1 ≤ lineNumber) (h2 : lineNumber ≤ doc.length) :
    1 ≤ (getParagraphFocusInfo lineNumber doc).fromLine ∧
    (getParagraphFocusInfo lineNumber doc).fromLine ≤ lineNumber ∧
    lineNumber ≤ (getParagraphFocusInfo lineNumber doc).toLine ∧
    (getParagraphFocusInfo lineNumber doc).toLine ≤ doc.length := by
  have hup := paraFromAux_spec doc (lineNumber - 1) lineNumber (by omega)
  have hdn := paraToAux_spec doc (doc.length - lineNumber) lineNumber (by omega)
  simp only [getParagraphFocusInfo]
  exact ⟨hup.1, hup.2.1, hdn.1, hdn.2.1⟩

theorem paragraph_extent_in_bounds_witness :
    1 ≤ (getParagraphFocusInfo 2 sampleDoc).fromLine ∧
    (getParagraphFocusInfo 2 sampleDoc).fromLine ≤ 2 ∧
    2 ≤ (getParagraphFocusInfo 2 sampleDoc).toLine ∧
    (getParagraphFocusInfo 2 sampleDoc).toLine ≤ sampleDoc.length :=
  paragraph_extent_in_bounds sampleDoc 2 (by decide) (by decide)

/-- C3: the paragraph extent expands `fromLine` upward and `toLine` downward
from the clicked line, each direction stopping exclusively at the first line
that is blank after trimming or matches the heading pattern, or at the
document boundaries; in particular, on
`["# H1", "line A", "line B", "", "line C"]` clicking line 2 or line 3
yields extent `[2, 3]` and clicking line 5 yields `[5, 5]`. -/
theorem paragraph_extent_boundaries (doc : List (List Char)) (lineNumber : Nat)
    (h1 : 1 ≤ lineNumber) (h2 : lineNumber ≤ doc.length) :
    ((getParagraphFocusInfo lineNumber doc).fromLine ≤ lineNumber ∧
     lineNumber ≤ (getParagraphFocusInfo lineNumber doc).toLine ∧
     (∀ j, (getParagraphFocusInfo lineNumber doc).fromLine ≤ j → j < lineNumber →
        isParagraphBoundary (docLine doc j) = false) ∧
     (∀ j, lineNumber < j → j ≤ (getParagraphFocusInfo lineNumber doc).toLine →
        isParagraphBoundary (docLine doc j) = false) ∧
     ((getParagraphFocusInfo lineNumber doc).fromLine = 1 ∨
       isParagraphBoundary
         (docLine doc ((getParagraphFocusInfo lineNumber doc).fromLine - 1)) = true) ∧
     ((getParagraphFocusInfo lineNumber doc).toLine = doc.length ∨
       isParagraphBoundary
         (docLine doc ((getParagraphFocusInfo lineNumber doc).toLine + 1)) = true)) ∧
    (getParagraphFocusInfo 2 sampleDoc =
       { fromLine := 2, toLine := 3, type := FocusType.paragraph, level := none } ∧
     getParagraphFocusInfo 3 sampleDoc =
       { fromLine := 2, toLine := 3, type := FocusType.paragraph, level := none } ∧
     getParagraphFocusInfo 5 sampleDoc =
       { fromLine := 5, toLine := 5, type := FocusType.paragraph, level := none }) := by
  refine ⟨?_, by decide, by decide, by decide⟩
  have hup := paraFromAux_spec doc (lineNumber - 1) lineNumber (by omega)
  have hdn := paraToAux_spec doc (doc.length - lineNumber) lineNumber (by omega)
  simp only [getParagraphFocusInfo]
  exact ⟨hup.2.1, hdn.1, hup.2.2.1, hdn.2.2.1, hup.2.2.2, hdn.2.2.2⟩

theorem paragraph_extent_boundaries_witness :
    (getParagraphFocusInfo 2 sampleDoc).fromLine ≤ 2 ∧
    2 ≤ (getParagraphFocusInfo 2 sampleDoc).toLine :=
  ⟨(paragraph_extent_boundaries sampleDoc 2 (by decide) (by decide)).1.1,
   (paragraph_extent_boundaries sampleDoc 2 (by decide) (by decide)).1.2.1⟩

/-- C4: whenever focus is active with extent `[fromLine, toLine]`, the
decoration set assigns the focused marker to exactly the document lines
inside the extent and the dimmed marker to exactly the document lines outside
it (so no line carries both); when the focus state is absent, the decoration
set is empty. -/
theorem buildDecorations_marks (doc : List (List Char)) (fi : EditModeFocusInfo) :
    (∀ i, 1 ≤ i → i ≤ doc.length →
      (((i, LineMark.focused) ∈ buildDecorations doc (some fi)) ↔
        (fi.fromLine ≤ i ∧ i ≤ fi.toLine)) ∧
      (((i, LineMark.dimmed) ∈ buildDecorations doc (some fi)) ↔
        ¬ (fi.fromLine ≤ i ∧ i ≤ fi.toLine))) ∧
    buildDecorations doc none = [] := by
  refine ⟨?_, rfl⟩
  intro i h1 h2
  simp only [buildDecorations, List.mem_map, List.mem_range]
  constructor
  · constructor
    · rintro ⟨k, hk, hfk⟩
      split at hfk
      · next hin =>
        injection hfk with hki _
        subst hki
        exact hin
      · next _ =>
        injection hfk with _ hbad
        exact LineMark.noConfusion hbad
    · intro hin
      refine ⟨i - 1, by omega, ?_⟩
      have hi : i - 1 + 1 = i := by omega
      rw [hi, if_pos hin]
  · constructor
    · rintro ⟨k, hk, hfk⟩
      split at hfk
      · next _ =>
        injection hfk with _ hbad
        exact LineMark.noConfusion hbad
      · next hnin =>
        injection hfk with hki _
        subst hki
        exact hnin
    · intro hnin
      refine ⟨i - 1, by omega, ?_⟩
      have hi : i - 1 + 1 = i := by omega
      rw [hi, if_neg hnin]

theorem buildDecorations_marks_witness :
    ((2, LineMark.focused) ∈
      buildDecorations sampleDoc (some (getParagraphFocusInfo 2 sampleDoc))) ∧
    buildDecorations sampleDoc none = [] :=
  ⟨((buildDecorations_marks sampleDoc (getParagraphFocusInfo 2 sampleDoc)).1
      2 (by decide) (by decide)).1.mpr (by decide),
   (buildDecorations_marks sampleDoc (getParagraphFocusInfo 2 sampleDoc)).2⟩

/-- C2: `getFocusInfoForLine` classifies a line matching the heading pattern
as a heading whose level is the count of leading `#` characters, with extent
computed by `getHeadingFocusInfo`; otherwise, when metadata is present, it
returns the nearest preceding heading's full extent (found by the backward
scan of `findParentHeading`) when `includeBody` is true, and the clicked
line's paragraph extent when `includeBody` is false or no preceding heading
exists. -/
theorem getFocusInfoForLine_classification
    (metadata : Option CachedMetadata) (includeBody : Bool)
    (lineNumber : Nat) (doc : List (List Char)) :
    (∀ level, headingMatchLevel (docLine doc lineNumber) = some level →
       level = countLeadingHashes (docLine doc lineNumber) ∧
       getFocusInfoForLine metadata includeBody lineNumber doc =
         some (getHeadingFocusInfo metadata includeBody lineNumber level)) ∧
    (headingMatchLevel (docLine doc lineNumber) = none →
      ∀ m, metadata = some m →
        (∀ info, findParentHeading metadata includeBody lineNumber = some info →
          getFocusInfoForLine metadata includeBody lineNumber doc =
            (if includeBody then some info
             else some (getParagraphFocusInfo lineNumber doc))) ∧
        (findParentHeading metadata includeBody lineNumber = none →
          getFocusInfoForLine metadata includeBody lineNumber doc =
            some (getParagraphFocusInfo lineNumber doc))) := by
  constructor
  · intro level hl
    refine ⟨headingMatchLevel_eq _ _ hl, ?_⟩
    simp only [getFocusInfoForLine, hl]
  · intro hl m hm
    subst hm
    constructor
    · intro info hinfo
      simp only [getFocusInfoForLine, hl, hinfo]
    · intro hnone
      simp only [getFocusInfoForLine, hl, hnone]

theorem getFocusInfoForLine_classification_witness :
    getFocusInfoForLine (some mdSpecSeven) true 1 sampleDoc =
      some (getHeadingFocusInfo (some mdSpecSeven) true 1 1) :=
  ((getFocusInfoForLine_classification (some mdSpecSeven) true 1 sampleDoc).1
    1 (by decide)).2

/-- C6: if no metadata heading has an adjusted start line equal to the clicked
heading line, or no heading metadata is available at all,
`getHeadingFocusInfo` degrades to the single-line extent
`fromLine = toLine = headingLine`. -/
theorem getHeadingFocusInfo_degraded (metadata : Option CachedMetadata)
    (includeBody : Bool) (headingLine level : Nat)
    (h : metadata.bind (fun m => m.headings) = none ∨
      ∃ hs, metadata.bind (fun m => m.headings) = some hs ∧
        ∀ hc ∈ hs, hc.position.start.line + 1 ≠ headingLine) :
    getHeadingFocusInfo metadata includeBody headingLine level =
      { fromLine := headingLine, toLine := headingLine,
        type := FocusType.heading, level := some level } := by
  rcases h with h | ⟨hs, hhs, hall⟩
  · unfold getHeadingFocusInfo
    rw [h]
  · have hidx :
        jsFindIndex (fun hc => hc.position.start.line + 1 = headingLine) hs = none :=
      jsFindIndex_eq_none _ _ (fun x hx => decide_eq_false (hall x hx))
    simp only [getHeadingFocusInfo, hhs, hidx]

theorem getHeadingFocusInfo_degraded_witness :
    getHeadingFocusInfo none true 7 2 =
      { fromLine := 7, toLine := 7, type := FocusType.heading, level := some 2 } :=
  getHeadingFocusInfo_degraded none true 7 2 (Or.inl rfl)

/-- C9: for every document and line number between 1 and the document's line
count, `getFocusInfoForLine` returns a non-null result, and the result's
variant is always heading or paragraph — the list and block variants are
never produced. -/
theorem getFocusInfoForLine_total (metadata : Option CachedMetadata)
    (includeBody : Bool) (lineNumber : Nat) (doc : List (List Char))
    (_h1 : 1 ≤ lineNumber) (_h2 : lineNumber ≤ doc.length) :
    ∃ info, getFocusInfoForLine metadata includeBody lineNumber doc = some info ∧
      (info.type = FocusType.heading ∨ info.type = FocusType.paragraph) := by
  simp only [getFocusInfoForLine]
  split
  · exact ⟨_, rfl, Or.inl (getHeadingFocusInfo_type _ _ _ _)⟩
  · split
    · exact ⟨_, rfl, Or.inr rfl⟩
    · split
      · next info heq =>
        split
        · exact ⟨_, rfl, Or.inl (findParentHeading_type _ _ _ _ heq)⟩
        · exact ⟨_, rfl, Or.inr rfl⟩
      · exact ⟨_, rfl, Or.inr rfl⟩

theorem getFocusInfoForLine_total_witness :
    ∃ info, getFocusInfoForLine none true 5 sampleDoc = some info ∧
      (info.type = FocusType.heading ∨ info.type = FocusType.paragraph) :=
  getFocusInfoForLine_total none true 5 sampleDoc (by decide) (by decide)

/-- C7 counterexample: a transaction carrying a set-focus effect does not
always end with the state equal to that effect's payload — when a clear-focus
effect precedes it in the effect list, the state becomes absent instead. -/
theorem focusStateUpdate_set_not_always_payload :
    FocusEffect.setFocus (some probeInfo) ∈
      [FocusEffect.clearFocus, FocusEffect.setFocus (some probeInfo)] ∧
    focusStateUpdate (some probeInfo)
      [FocusEffect.clearFocus, FocusEffect.setFocus (some probeInfo)] ≠
      some probeInfo := by decide

/-- C7 amended: the focus state changes only through the two explicit
effects, the first focus effect in the transaction's effect list taking
precedence: if it is a set-focus effect the state becomes its payload, if it
is a clear-focus effect the state becomes absent, and a transaction carrying
neither effect leaves the state unchanged. -/
theorem focusStateUpdate_first_effect_wins (value : Option EditModeFocusInfo)
    (effects : List FocusEffect) :
    (∀ v, firstFocusEffect effects = some (FocusEffect.setFocus v) →
       focusStateUpdate value effects = v) ∧
    (firstFocusEffect effects = some FocusEffect.clearFocus →
       focusStateUpdate value effects = none) ∧
    (firstFocusEffect effects = none →
       focusStateUpdate value effects = value) := by
  induction effects with
  | nil =>
    refine ⟨?_, ?_, ?_⟩
    · intro v h
      cases h
    · intro h
      cases h
    · intro h
      rfl
  | cons e rest ih =>
    cases e with
    | setFocus w =>
      refine ⟨?_, ?_, ?_⟩
      · intro v h
        have h2 := Option.some_inj.mp h
        injection h2
      · intro h
        exact FocusEffect.noConfusion (Option.some_inj.mp h)
      · intro h
        cases h
    | clearFocus =>
      refine ⟨?_, fun _ => rfl, ?_⟩
      · intro v h
        exact FocusEffect.noConfusion (Option.some_inj.mp h)
      · intro h
        cases h
    | other =>
      exact ih

theorem focusStateUpdate_first_effect_wins_witness :
    focusStateUpdate none [FocusEffect.other, FocusEffect.setFocus (some probeInfo)] =
      some probeInfo :=
  (focusStateUpdate_first_effect_wins none
    [FocusEffect.other, FocusEffect.setFocus (some probeInfo)]).1
    (some probeInfo) (by decide)

/-- C8: a pointer-up event whose timestamp delta from the preceding
pointer-down exceeds `focusSensitivity` makes the handler return before any
focus or clear action, so no focus state in either mode is created, replaced,
or cleared — for any target and mode (any `dispatch`). -/
theorem pointerup_drag_ignored (settings : FocusPluginSettings)
    (lastClick timeStamp : Int) (dispatch : List FocusAction)
    (h : settings.focusSensitivity < timeStamp - lastClick) :
    pointerupHandler settings lastClick timeStamp dispatch = [] := by
  cases hE : settings.isEnabled with
  | false => simp [pointerupHandler, hE]
  | true => simp [pointerupHandler, hE, h]

theorem pointerup_drag_ignored_witness :
    pointerupHandler DEFAULT_SETTINGS 0 2000 [FocusAction.previewFocus] = [] :=
  pointerup_drag_ignored DEFAULT_SETTINGS 0 2000 [FocusAction.previewFocus]
    (by decide)

/-- C1 (failing input): with two adjacent level-1 headings on 1-based lines 1
and 2 and the document's last section ending at 0-based line 2, focusing the
heading on line 1 with body inclusion produces extent `[1, 3]`, which
includes the equal-level sibling heading on line 2 — the extent does not end
strictly before the next heading of equal-or-shallower level, contradicting
the code's own comment ("If no next heading found, extend to end of
document": a next heading was found). -/
theorem heading_extent_swallows_adjacent_sibling :
    getHeadingFocusInfo (some mdAdjacent) true 1 1 =
      { fromLine := 1, toLine := 3, type := FocusType.heading, level := some 1 } ∧
    ¬ (getHeadingFocusInfo (some mdAdjacent) true 1 1).toLine < 2 := by decide

/-- C5 counterexample: with headings at 1-based lines 1 (level 1) and 5
(level 2) and the last section ending at 0-based line 9, focusing line 1 with
body inclusion yields `toLine = 10`, not 4 — the level-2 heading does not
terminate a level-1 section. -/
theorem spec_example_line1_not_four :
    (getHeadingFocusInfo (some mdSpecSeven) true 1 1).toLine ≠ 4 ∧
    (getHeadingFocusInfo (some mdSpecSeven) true 1 1).toLine = 10 := by decide

/-- C5 amended: with headings at lines 1 (level 1) and 5 (level 2) and a last
section ending at 0-based line 9, focusing line 1 yields `toLine = 10` (the
level-2 heading does not terminate the level-1 section, so the extent runs to
the document end); had the heading at line 5 level 1, focusing line 1 would
yield `toLine = 4` (the line before it); and focusing the heading at line 5,
with no further headings, yields `toLine = 10`. -/
theorem spec_example_amended :
    (getHeadingFocusInfo (some mdSpecSeven) true 1 1).toLine = 10 ∧
    (getHeadingFocusInfo (some mdSpecSevenLvl1) true 1 1).toLine = 4 ∧
    (getHeadingFocusInfo (some mdSpecSeven) true 5 2).toLine = 10 := by decide

end FocusPlugin
